import Mathlib

/-!
Shallow embedding of the Dyson ring visualization program (src/main.py) and
verification of its specification's claims.  The embedding uses exact real
arithmetic for the floating-point computations of the source; list-valued
numpy arrays become Lean lists, and the per-frame compositor loop of main
becomes an explicit list-building function.
-/

namespace DysonRing

/-- Config constant WIDTH (main.py line 23). -/
def WIDTH : ℝ := 1200

/-- Config constant HEIGHT (main.py line 23). -/
def HEIGHT : ℝ := 900

/-- Config constant SCALE (main.py line 37). -/
noncomputable def SCALE : ℝ := 52.5

/-- Config constant DOUBLE_FACE_Z_OFFSET (main.py line 49). -/
noncomputable def DOUBLE_FACE_Z_OFFSET : ℝ := 1e-4

/-- A 3D point, as produced by the geometry builder. -/
abbrev Vec3 := Fin 3 → ℝ

/-- Embedding of reverse_edge_flags (main.py lines 117-120): re-map edge draw
flags for a polygon whose winding has been reversed.  Lists of length at most
one are returned as they are; otherwise all flags but the last are reversed
and the last flag is re-appended. -/
def reverse_edge_flags (edge_flags : List Bool) : List Bool :=
  if edge_flags.length ≤ 1 then edge_flags
  else edge_flags.dropLast.reverse ++ [edge_flags.getLast!]

/-- Embedding of np.linspace(start, stop, num) as used by the geometry
builder: num evenly spaced samples from start to stop inclusive; a single
sample is the start point. -/
noncomputable def linspace (start stop : ℝ) (num : ℕ) : List ℝ :=
  if num = 1 then [start]
  else (List.range num).map (fun i : ℕ => start + (stop - start) * (i : ℝ) / ((num : ℝ) - 1))

/-- Embedding of make_curved_beveled_segment (main.py lines 76-99): generate a
curved segment with a simple box cross-section; returns vertices, an empty
edge list, and faces as (vertex-index list, edge-draw-flag list) pairs.  The
bevel argument is accepted but unused, exactly as in the source. -/
noncomputable def make_curved_beveled_segment (angle_center angle_span r_inner r_outer height : ℝ)
    (subdivs : ℕ) (bevel : ℝ) :
    List Vec3 × List (ℕ × ℕ) × List (List ℕ × List Bool) :=
  let half_span := angle_span * 0.5
  let rs : List ℝ := [r_inner, r_outer, r_outer, r_inner]
  let zs : List ℝ := [-height / 2, -height / 2, height / 2, height / 2]
  let theta_steps := linspace (angle_center - half_span) (angle_center + half_span) (subdivs + 1)
  let n_rings := theta_steps.length
  let points_per_ring := 4
  let verts := theta_steps.flatMap (fun theta =>
    (List.range points_per_ring).map (fun j =>
      ![rs.getD j 0 * Real.cos theta, rs.getD j 0 * Real.sin theta, zs.getD j 0]))
  let side_faces := (List.range n_rings).flatMap (fun i =>
    if 0 < i then
      (List.range points_per_ring).map (fun j =>
        ([(i - 1) * points_per_ring + j, i * points_per_ring + j,
          i * points_per_ring + (j + 1) % points_per_ring,
          (i - 1) * points_per_ring + (j + 1) % points_per_ring],
         [true, decide (i = n_rings - 1), true, decide (i = 1)]))
    else [])
  let last_base := (n_rings - 1) * points_per_ring
  (verts, [],
    side_faces ++ [([0, 1, 2, 3], [true, true, true, true]),
      ([last_base + 3, last_base + 2, last_base + 1, last_base], [true, true, true, true])])

/- ------------------------- helper lemmas ------------------------- -/

theorem length_linspace (start stop : ℝ) (num : ℕ) : (linspace start stop num).length = num := by
  unfold linspace
  split
  · simp_all
  · rw [List.length_map, List.length_range]

theorem flatMap_range_succ_of_zero_nil {α : Type*} (n : ℕ) (f : ℕ → List α) (h : f 0 = []) :
    (List.range (n + 1)).flatMap f = (List.range n).flatMap (fun t => f (t + 1)) := by
  rw [List.range_succ_eq_map]
  simp only [List.flatMap_cons, h, List.nil_append]
  rw [List.flatMap_map]

theorem length_flatMap_const {α β : Type*} (l : List α) (f : α → List β) (c : ℕ)
    (h : ∀ a, (f a).length = c) : (l.flatMap f).length = l.length * c := by
  induction l with
  | nil => simp
  | cons a t ih => simp_all [Nat.succ_mul, Nat.add_comm]

theorem length_flatMap_range_const {α : Type*} (n c : ℕ) (f : ℕ → List α)
    (h : ∀ i, (f i).length = c) : ((List.range n).flatMap f).length = n * c := by
  rw [length_flatMap_const _ _ c h, List.length_range]

theorem getElem?_flatMap_range_const {α : Type*} (n c : ℕ) (f : ℕ → List α)
    (h : ∀ i, (f i).length = c) (k j : ℕ) (hk : k < n) (hj : j < c) :
    ((List.range n).flatMap f)[k * c + j]? = (f k)[j]? := by
  induction n with
  | zero => omega
  | succ m ih =>
    rw [List.range_succ, List.flatMap_append]
    rcases Nat.lt_or_ge k m with hkm | hkm
    · rw [List.getElem?_append]
      rw [length_flatMap_range_const m c f h]
      have : k * c + j < m * c := by
        calc k * c + j < k * c + c := by omega
        _ = (k + 1) * c := by ring
        _ ≤ m * c := Nat.mul_le_mul_right c hkm
      rw [if_pos this]
      exact ih hkm
    · have hkm' : k = m := by omega
      subst hkm'
      rw [List.getElem?_append_right (by rw [length_flatMap_range_const k c f h]; omega)]
      rw [length_flatMap_range_const k c f h]
      simp only [Nat.add_sub_cancel_left, List.flatMap_cons, List.flatMap_nil, List.append_nil]

/-- The vertex list of a segment has length 4 * (subdivs + 1). -/
theorem make_segment_verts_length (angle_center angle_span r_inner r_outer height : ℝ)
    (subdivs : ℕ) (bevel : ℝ) :
    (make_curved_beveled_segment angle_center angle_span r_inner r_outer height subdivs bevel).1.length
      = 4 * (subdivs + 1) := by
  unfold make_curved_beveled_segment
  rw [length_flatMap_const _ _ 4 (fun _ => by simp), length_linspace]
  ring

/-- Closed form of the face list of a segment: 4 side faces per ring step
(ring steps t+1 = 1 .. subdivs), then the two end caps. -/
theorem make_segment_faces_eq (angle_center angle_span r_inner r_outer height : ℝ)
    (subdivs : ℕ) (bevel : ℝ) :
    (make_curved_beveled_segment angle_center angle_span r_inner r_outer height subdivs bevel).2.2
      = (List.range subdivs).flatMap (fun t =>
          (List.range 4).map (fun j =>
            ([t * 4 + j, (t + 1) * 4 + j, (t + 1) * 4 + (j + 1) % 4, t * 4 + (j + 1) % 4],
             [true, decide (t + 1 = subdivs), true, decide (t + 1 = 1)])))
        ++ [([0, 1, 2, 3], [true, true, true, true]),
            ([subdivs * 4 + 3, subdivs * 4 + 2, subdivs * 4 + 1, subdivs * 4],
             [true, true, true, true])] := by
  unfold make_curved_beveled_segment
  simp only [length_linspace, Nat.add_sub_cancel]
  rw [flatMap_range_succ_of_zero_nil _ _ (by simp)]
  congr 1
  apply List.flatMap_congr
  intro t _
  simp only [Nat.zero_lt_succ, if_true, Nat.add_sub_cancel]

/-- The face list of a segment has length subdivs * 4 + 2. -/
theorem make_segment_faces_length (angle_center angle_span r_inner r_outer height : ℝ)
    (subdivs : ℕ) (bevel : ℝ) :
    (make_curved_beveled_segment angle_center angle_span r_inner r_outer height subdivs bevel).2.2.length
      = subdivs * 4 + 2 := by
  rw [make_segment_faces_eq, List.length_append,
    length_flatMap_range_const _ 4 _ (fun _ => by simp)]
  rfl

theorem reverse_edge_flags_concat (ys : List Bool) (x : Bool) (h : ys ≠ []) :
    reverse_edge_flags (ys ++ [x]) = ys.reverse ++ [x] := by
  unfold reverse_edge_flags
  rw [if_neg (by
    have hpos := List.length_pos.mpr h
    simp only [List.length_append, List.length_cons, List.length_nil]
    omega)]
  rw [List.dropLast_concat, List.getLast!_of_getLast? (List.getLast?_concat ys)]

/- ------------------------- the claims ------------------------- -/

/-- Claim C3: for every subdivisions count at least 1 and any angle, radius and
height arguments, make_curved_beveled_segment returns exactly 4 * (subdivisions
+ 1) vertices and exactly subdivisions * 4 + 2 faces. -/
theorem C3_segment_counts (angle_center angle_span r_inner r_outer height bevel : ℝ)
    (subdivs : ℕ) (h : 1 ≤ subdivs) :
    (make_curved_beveled_segment angle_center angle_span r_inner r_outer height subdivs bevel).1.length
        = 4 * (subdivs + 1)
      ∧ (make_curved_beveled_segment angle_center angle_span r_inner r_outer height subdivs bevel).2.2.length
        = subdivs * 4 + 2 :=
  ⟨make_segment_verts_length angle_center angle_span r_inner r_outer height subdivs bevel,
   make_segment_faces_length angle_center angle_span r_inner r_outer height subdivs bevel⟩

/-- Witness for C3: with subdivisions = 6 (and the program's angular span of 27
degrees worth of arc, radii 4.5 and 7.5, height 2.5) the segment has exactly 28
vertices and 26 faces. -/
theorem C3_segment_counts_witness :
    1 ≤ 6
      ∧ (make_curved_beveled_segment 0 0.45 4.5 7.5 2.5 6 0.15).1.length = 28
      ∧ (make_curved_beveled_segment 0 0.45 4.5 7.5 2.5 6 0.15).2.2.length = 26 :=
  ⟨by decide,
   (C3_segment_counts 0 0.45 4.5 7.5 2.5 0.15 6 (by decide)).1.trans (by norm_num),
   (C3_segment_counts 0 0.45 4.5 7.5 2.5 0.15 6 (by decide)).2.trans (by norm_num)⟩

/-- Claim C9: the bevel parameter has no effect on the output of
make_curved_beveled_segment; any two bevel values with identical other
arguments give identical vertices, edges and faces. -/
theorem C9_bevel_noop (angle_center angle_span r_inner r_outer height : ℝ)
    (subdivs : ℕ) (bevel bevel' : ℝ) :
    make_curved_beveled_segment angle_center angle_span r_inner r_outer height subdivs bevel
      = make_curved_beveled_segment angle_center angle_span r_inner r_outer height subdivs bevel' :=
  rfl

/-- Claim C4: reverse_edge_flags is an involution on flag lists of length at
least 2, and preserves the length of every flag list. -/
theorem C4_reverse_edge_flags_involution :
    (∀ flags : List Bool, 2 ≤ flags.length →
        reverse_edge_flags (reverse_edge_flags flags) = flags)
      ∧ ∀ flags : List Bool, (reverse_edge_flags flags).length = flags.length := by
  constructor
  · intro flags hf
    rcases List.eq_nil_or_concat flags with rfl | ⟨ys, x, rfl⟩
    · simp at hf
    · rw [List.concat_eq_append] at hf ⊢
      have hys : ys ≠ [] := by
        intro hnil
        rw [hnil] at hf
        simp at hf
      rw [reverse_edge_flags_concat ys x hys,
        reverse_edge_flags_concat ys.reverse x (by simpa using hys),
        List.reverse_reverse]
  · intro flags
    unfold reverse_edge_flags
    split
    · rfl
    · rw [List.length_append, List.length_reverse, List.length_dropLast]
      simp only [List.length_cons, List.length_nil]
      omega

/-- Witness for C4: a concrete length-3 flag list round-trips, and a concrete
length-2 flag list keeps its length. -/
theorem C4_reverse_edge_flags_involution_witness :
    2 ≤ ([true, false, true] : List Bool).length
      ∧ reverse_edge_flags (reverse_edge_flags [true, false, true]) = [true, false, true]
      ∧ (reverse_edge_flags [true, false]).length = ([true, false] : List Bool).length :=
  ⟨by decide,
   C4_reverse_edge_flags_involution.1 [true, false, true] (by decide),
   C4_reverse_edge_flags_involution.2 [true, false]⟩

/-- Claim C5: for every subdivisions count at least 1, the j-th side face of
ring step i (for 1 <= i <= subdivisions, 0 <= j < 4, stored at position
(i - 1) * 4 + j of the face list) carries edge-draw flags [true, i is the last
ring step, true, i is the first ring step], and the two end-cap faces (the last
two entries of the face list) carry all four flags true. -/
theorem C5_side_face_flags (angle_center angle_span r_inner r_outer height bevel : ℝ)
    (subdivs : ℕ) (hs : 1 ≤ subdivs) :
    (∀ i j : ℕ, 1 ≤ i → i ≤ subdivs → j < 4 →
        ((make_curved_beveled_segment angle_center angle_span r_inner r_outer height subdivs
            bevel).2.2[(i - 1) * 4 + j]?).map Prod.snd
          = some [true, decide (i = subdivs), true, decide (i = 1)])
      ∧ ((make_curved_beveled_segment angle_center angle_span r_inner r_outer height subdivs
            bevel).2.2[subdivs * 4]?).map Prod.snd = some [true, true, true, true]
      ∧ ((make_curved_beveled_segment angle_center angle_span r_inner r_outer height subdivs
            bevel).2.2[subdivs * 4 + 1]?).map Prod.snd = some [true, true, true, true] := by
  rw [make_segment_faces_eq]
  have hlen : ((List.range subdivs).flatMap (fun t =>
      (List.range 4).map (fun j =>
        ([t * 4 + j, (t + 1) * 4 + j, (t + 1) * 4 + (j + 1) % 4, t * 4 + (j + 1) % 4],
         [true, decide (t + 1 = subdivs), true, decide (t + 1 = 1)])))).length = subdivs * 4 :=
    length_flatMap_range_const _ 4 _ (fun _ => by simp)
  refine ⟨?_, ?_, ?_⟩
  · intro i j hi1 hi2 hj
    rw [List.getElem?_append, hlen, if_pos (by omega)]
    rw [getElem?_flatMap_range_const subdivs 4 _ (fun _ => by simp) (i - 1) j (by omega) hj]
    have hi : i - 1 + 1 = i := by omega
    simp only [List.getElem?_map, List.getElem?_range, hj, dite_true, hi]
    simp [List.getElem?_range, hj]
  · rw [List.getElem?_append, hlen, if_neg (by omega), Nat.sub_self]
    rfl
  · rw [List.getElem?_append, hlen, if_neg (by omega)]
    have : subdivs * 4 + 1 - subdivs * 4 = 1 := by omega
    rw [this]
    rfl

/-- Witness for C5: with subdivisions = 2, ring step 1 and corner 0 the side
face flags are as claimed and both end caps are fully flagged. -/
theorem C5_side_face_flags_witness :
    (1 ≤ 2 ∧ 1 ≤ 1 ∧ 1 ≤ 2 ∧ 0 < 4)
      ∧ ((make_curved_beveled_segment 0 0.45 4.5 7.5 2.5 2 0.15).2.2[(1 - 1) * 4 + 0]?).map Prod.snd
          = some [true, decide (1 = 2), true, decide (1 = 1)]
      ∧ ((make_curved_beveled_segment 0 0.45 4.5 7.5 2.5 2 0.15).2.2[2 * 4]?).map Prod.snd
          = some [true, true, true, true] :=
  ⟨by decide,
   (C5_side_face_flags 0 0.45 4.5 7.5 2.5 0.15 2 (by decide)).1 1 0 (by decide) (by decide)
     (by decide),
   (C5_side_face_flags 0 0.45 4.5 7.5 2.5 0.15 2 (by decide)).2.1⟩

/-- Claim C10: for every subdivisions count at least 1, the vertex list has
length 4 * (subdivisions + 1) and every vertex index appearing in any face is
strictly below that length, so indexing the vertex array by face indices never
goes out of bounds. -/
theorem C10_face_indices_in_bounds (angle_center angle_span r_inner r_outer height bevel : ℝ)
    (subdivs : ℕ) (hs : 1 ≤ subdivs) :
    (make_curved_beveled_segment angle_center angle_span r_inner r_outer height subdivs
        bevel).1.length = 4 * (subdivs + 1)
      ∧ ∀ fp ∈ (make_curved_beveled_segment angle_center angle_span r_inner r_outer height subdivs
          bevel).2.2, ∀ idx ∈ fp.1, idx < 4 * (subdivs + 1) := by
  refine ⟨make_segment_verts_length angle_center angle_span r_inner r_outer height subdivs bevel,
    ?_⟩
  rw [make_segment_faces_eq]
  intro fp hfp idx hidx
  rcases List.mem_append.mp hfp with hside | hcap
  · obtain ⟨t, ht, hmem⟩ := List.mem_flatMap.mp hside
    have ht' : t < subdivs := List.mem_range.mp ht
    obtain ⟨j, hj, rfl⟩ := List.mem_map.mp hmem
    have hj' : j < 4 := List.mem_range.mp hj
    have hmod : (j + 1) % 4 < 4 := Nat.mod_lt _ (by omega)
    simp only [List.mem_cons, List.not_mem_nil, or_false] at hidx
    rcases hidx with rfl | rfl | rfl | rfl <;> omega
  · simp only [List.mem_cons, List.not_mem_nil, or_false] at hcap
    rcases hcap with rfl | rfl <;>
      simp only [List.mem_cons, List.not_mem_nil, or_false] at hidx <;>
      rcases hidx with rfl | rfl | rfl | rfl <;> omega

/-- Witness for C10: with subdivisions = 1 the bound holds for the concrete
segment. -/
theorem C10_face_indices_in_bounds_witness :
    1 ≤ 1
      ∧ ((make_curved_beveled_segment 0 0.45 4.5 7.5 2.5 1 0.15).1.length = 4 * (1 + 1)
        ∧ ∀ fp ∈ (make_curved_beveled_segment 0 0.45 4.5 7.5 2.5 1 0.15).2.2,
            ∀ idx ∈ fp.1, idx < 4 * (1 + 1)) :=
  ⟨by decide, C10_face_indices_in_bounds 0 0.45 4.5 7.5 2.5 0.15 1 (by decide)⟩

/-- Embedding of sample_point_on_quad (main.py lines 101-106): bilinear sample
of a point on a quad face; the two uniform random numbers drawn in the source
become the explicit parameters u and v.  Non-4-index faces return the face's
first vertex. -/
noncomputable def sample_point_on_quad (verts : List Vec3) (face : List ℕ) (u v : ℝ) : Vec3 :=
  if face.length ≠ 4 then verts.getD (face.headD 0) 0
  else
    let a := verts.getD (face.getD 0 0) 0
    let b := verts.getD (face.getD 1 0) 0
    let c := verts.getD (face.getD 2 0) 0
    let d := verts.getD (face.getD 3 0) 0
    ((1 - u) * (1 - v)) • a + (u * (1 - v)) • b + (u * v) • c + ((1 - u) * v) • d

/-- Claim C6: for parameters u, v in the unit interval, sample_point_on_quad on
a 4-index face returns the bilinear combination of the four corner vertices
whose four weights are each in the unit interval and sum to one, hence a point
of the convex hull of the corners; on a face whose index list does not have
length 4 it returns the face's first vertex. -/
theorem C6_sample_point_convex (verts : List Vec3) (face : List ℕ) (u v : ℝ)
    (hu0 : 0 ≤ u) (hu1 : u ≤ 1) (hv0 : 0 ≤ v) (hv1 : v ≤ 1) :
    (face.length = 4 →
      (sample_point_on_quad verts face u v
          = ((1 - u) * (1 - v)) • (verts.getD (face.getD 0 0) 0)
            + (u * (1 - v)) • (verts.getD (face.getD 1 0) 0)
            + (u * v) • (verts.getD (face.getD 2 0) 0)
            + ((1 - u) * v) • (verts.getD (face.getD 3 0) 0))
        ∧ (∃ w : Fin 4 → ℝ, (∀ k, 0 ≤ w k ∧ w k ≤ 1) ∧ (∑ k, w k) = 1
            ∧ sample_point_on_quad verts face u v
                = ∑ k, w k • (verts.getD (face.getD (k : ℕ) 0) 0))
        ∧ sample_point_on_quad verts face u v
            ∈ convexHull ℝ ({verts.getD (face.getD 0 0) 0, verts.getD (face.getD 1 0) 0,
                verts.getD (face.getD 2 0) 0, verts.getD (face.getD 3 0) 0} : Set Vec3))
      ∧ (face.length ≠ 4 →
          sample_point_on_quad verts face u v = verts.getD (face.headD 0) 0) := by
  constructor
  · intro h4
    have hne : ¬ face.length ≠ 4 := by simp [h4]
    have heq : sample_point_on_quad verts face u v
        = ((1 - u) * (1 - v)) • (verts.getD (face.getD 0 0) 0)
          + (u * (1 - v)) • (verts.getD (face.getD 1 0) 0)
          + (u * v) • (verts.getD (face.getD 2 0) 0)
          + ((1 - u) * v) • (verts.getD (face.getD 3 0) 0) := by
      unfold sample_point_on_quad
      rw [if_neg hne]
    have hsum : ∑ k : Fin 4, (![(1 - u) * (1 - v), u * (1 - v), u * v, (1 - u) * v]) k
        = 1 := by
      rw [Fin.sum_univ_four]
      simp only [Matrix.cons_val_zero, Matrix.cons_val_one, Matrix.head_cons,
        Matrix.cons_val_two, Matrix.tail_cons, Matrix.cons_val_three]
      ring
    have hwnn : ∀ k : Fin 4, 0 ≤ (![(1 - u) * (1 - v), u * (1 - v), u * v, (1 - u) * v]) k := by
      intro k
      fin_cases k <;> simp <;> nlinarith
    have hrepr : sample_point_on_quad verts face u v
        = ∑ k : Fin 4, (![(1 - u) * (1 - v), u * (1 - v), u * v, (1 - u) * v]) k
            • (verts.getD (face.getD (k : ℕ) 0) 0) := by
      rw [heq, Fin.sum_univ_four]
      simp only [Matrix.cons_val_zero, Matrix.cons_val_one, Matrix.head_cons,
        Matrix.cons_val_two, Matrix.tail_cons, Matrix.cons_val_three, Fin.isValue,
        Fin.val_zero, Fin.val_one, Fin.val_two]
      norm_num
      rfl
    refine ⟨heq, ⟨![(1 - u) * (1 - v), u * (1 - v), u * v, (1 - u) * v], ?_, hsum, hrepr⟩, ?_⟩
    · intro k
      refine ⟨hwnn k, ?_⟩
      fin_cases k <;> simp <;> nlinarith
    · rw [hrepr]
      refine Convex.sum_mem (convex_convexHull ℝ _) (fun k _ => hwnn k) hsum ?_
      intro k _
      apply subset_convexHull ℝ _
      fin_cases k <;>
        simp [Set.mem_insert_iff]
  · intro hne
    unfold sample_point_on_quad
    rw [if_pos hne]

/-- Witness for C6: a concrete unit square face sampled at u = 0, v = 0 lies in
the convex hull of its corners. -/
theorem C6_sample_point_convex_witness :
    (0 : ℝ) ≤ 0 ∧ (0 : ℝ) ≤ 1 ∧ ([0, 1, 2, 3] : List ℕ).length = 4
      ∧ sample_point_on_quad [![0, 0, 0], ![1, 0, 0], ![1, 1, 0], ![0, 1, 0]] [0, 1, 2, 3] 0 0
          ∈ convexHull ℝ
            ({List.getD [![0, 0, 0], ![1, 0, 0], ![1, 1, 0], ![0, 1, 0]] (List.getD [0, 1, 2, 3] 0 0) 0,
              List.getD [![0, 0, 0], ![1, 0, 0], ![1, 1, 0], ![0, 1, 0]] (List.getD [0, 1, 2, 3] 1 0) 0,
              List.getD [![0, 0, 0], ![1, 0, 0], ![1, 1, 0], ![0, 1, 0]] (List.getD [0, 1, 2, 3] 2 0) 0,
              List.getD [![0, 0, 0], ![1, 0, 0], ![1, 1, 0], ![0, 1, 0]] (List.getD [0, 1, 2, 3] 3 0) 0} :
              Set Vec3) :=
  ⟨le_refl 0, zero_le_one, rfl,
   ((C6_sample_point_convex [![0, 0, 0], ![1, 0, 0], ![1, 1, 0], ![0, 1, 0]] [0, 1, 2, 3] 0 0
       (le_refl 0) zero_le_one (le_refl 0) zero_le_one).1 rfl).2.2⟩

/-- Embedding of rotation_matrix_z (main.py lines 64-66). -/
noncomputable def rotation_matrix_z (theta : ℝ) : Matrix (Fin 3) (Fin 3) ℝ :=
  !![Real.cos theta, -Real.sin theta, 0; Real.sin theta, Real.cos theta, 0; 0, 0, 1]

/-- Embedding of rotation_matrix_x (main.py lines 68-70). -/
noncomputable def rotation_matrix_x (theta : ℝ) : Matrix (Fin 3) (Fin 3) ℝ :=
  !![1, 0, 0; 0, Real.cos theta, -Real.sin theta; 0, Real.sin theta, Real.cos theta]

/-- Embedding of rotation_matrix_y (main.py lines 72-74). -/
noncomputable def rotation_matrix_y (theta : ℝ) : Matrix (Fin 3) (Fin 3) ℝ :=
  !![Real.cos theta, 0, Real.sin theta; 0, 1, 0; -Real.sin theta, 0, Real.cos theta]

/-- The composed per-frame rotation matrix (main.py line 184): yaw about y,
then pitch about x, then spin about z, multiplied in that order. -/
noncomputable def compose_rotation (yaw pitch spin : ℝ) : Matrix (Fin 3) (Fin 3) ℝ :=
  rotation_matrix_y yaw * rotation_matrix_x pitch * rotation_matrix_z spin

/-- Embedding of project_points (main.py lines 137-142): orthographic
projection of 3D points to screen x and y lists, plus an all-true visibility
mask and an all-ones depth-scale array. -/
noncomputable def project_points (points : List Vec3) :
    List ℝ × List ℝ × List Bool × List ℝ :=
  if points.length = 0 then ([], [], [], [])
  else
    let scaled := points.map (fun p => fun i => p i * SCALE)
    (scaled.map (fun p => WIDTH * 0.5 + p 0),
     scaled.map (fun p => HEIGHT * 0.5 - p 1),
     scaled.map (fun _ => true),
     scaled.map (fun _ => (1 : ℝ)))

/- ------------------ transform pipeline lemmas ------------------ -/

theorem project_points_def (points : List Vec3) :
    project_points points
      = (points.map (fun p => WIDTH * 0.5 + p 0 * SCALE),
         points.map (fun p => HEIGHT * 0.5 - p 1 * SCALE),
         points.map (fun _ => true),
         points.map (fun _ => (1 : ℝ))) := by
  unfold project_points
  split
  · rename_i hlen
    rw [List.length_eq_zero] at hlen
    subst hlen
    rfl
  · simp only [List.map_map]
    rfl

theorem rotZ_transpose (t : ℝ) :
    (rotation_matrix_z t).transpose
      = !![Real.cos t, Real.sin t, 0; -Real.sin t, Real.cos t, 0; 0, 0, 1] := by
  unfold rotation_matrix_z
  ext i j
  fin_cases i <;> fin_cases j <;> rfl

theorem rotX_transpose (t : ℝ) :
    (rotation_matrix_x t).transpose
      = !![1, 0, 0; 0, Real.cos t, Real.sin t; 0, -Real.sin t, Real.cos t] := by
  unfold rotation_matrix_x
  ext i j
  fin_cases i <;> fin_cases j <;> rfl

theorem rotY_transpose (t : ℝ) :
    (rotation_matrix_y t).transpose
      = !![Real.cos t, 0, -Real.sin t; 0, 1, 0; Real.sin t, 0, Real.cos t] := by
  unfold rotation_matrix_y
  ext i j
  fin_cases i <;> fin_cases j <;> rfl

theorem rotZ_mul_transpose (t : ℝ) :
    rotation_matrix_z t * (rotation_matrix_z t).transpose = 1 := by
  rw [rotZ_transpose]
  unfold rotation_matrix_z
  rw [Matrix.mul_fin_three, Matrix.one_fin_three]
  ext i j
  fin_cases i <;> fin_cases j <;> simp [Matrix.vecHead, Matrix.vecTail] <;>
    nlinarith [Real.sin_sq_add_cos_sq t]

theorem rotX_mul_transpose (t : ℝ) :
    rotation_matrix_x t * (rotation_matrix_x t).transpose = 1 := by
  rw [rotX_transpose]
  unfold rotation_matrix_x
  rw [Matrix.mul_fin_three, Matrix.one_fin_three]
  ext i j
  fin_cases i <;> fin_cases j <;> simp [Matrix.vecHead, Matrix.vecTail] <;>
    nlinarith [Real.sin_sq_add_cos_sq t]

theorem rotY_mul_transpose (t : ℝ) :
    rotation_matrix_y t * (rotation_matrix_y t).transpose = 1 := by
  rw [rotY_transpose]
  unfold rotation_matrix_y
  rw [Matrix.mul_fin_three, Matrix.one_fin_three]
  ext i j
  fin_cases i <;> fin_cases j <;> simp [Matrix.vecHead, Matrix.vecTail] <;>
    nlinarith [Real.sin_sq_add_cos_sq t]

theorem det_rotZ (t : ℝ) : (rotation_matrix_z t).det = 1 := by
  simp [rotation_matrix_z, Matrix.det_fin_three]
  nlinarith [Real.sin_sq_add_cos_sq t]

theorem det_rotX (t : ℝ) : (rotation_matrix_x t).det = 1 := by
  simp [rotation_matrix_x, Matrix.det_fin_three]
  nlinarith [Real.sin_sq_add_cos_sq t]

theorem det_rotY (t : ℝ) : (rotation_matrix_y t).det = 1 := by
  simp [rotation_matrix_y, Matrix.det_fin_three]
  nlinarith [Real.sin_sq_add_cos_sq t]

theorem mul_transpose_triple {A B C : Matrix (Fin 3) (Fin 3) ℝ}
    (hA : A * A.transpose = 1) (hB : B * B.transpose = 1) (hC : C * C.transpose = 1) :
    (A * B * C) * (A * B * C).transpose = 1 := by
  calc (A * B * C) * (A * B * C).transpose
      = A * B * C * (C.transpose * (B.transpose * A.transpose)) := by
        rw [Matrix.transpose_mul, Matrix.transpose_mul]
  _ = A * B * (C * C.transpose) * (B.transpose * A.transpose) := by simp only [mul_assoc]
  _ = A * B * (B.transpose * A.transpose) := by rw [hC, mul_one]
  _ = A * (B * B.transpose) * A.transpose := by simp only [mul_assoc]
  _ = A * A.transpose := by rw [hB, mul_one]
  _ = 1 := hA

/-- Claim C7: for all yaw, pitch and spin angles the composed rotation matrix
is orthonormal: its product with its transpose is the identity and its
determinant equals 1, exactly over real arithmetic. -/
theorem C7_rotation_orthonormal (yaw pitch spin : ℝ) :
    compose_rotation yaw pitch spin * (compose_rotation yaw pitch spin).transpose = 1
      ∧ (compose_rotation yaw pitch spin).det = 1 := by
  constructor
  · exact mul_transpose_triple (rotY_mul_transpose yaw) (rotX_mul_transpose pitch)
      (rotZ_mul_transpose spin)
  · unfold compose_rotation
    rw [Matrix.det_mul, Matrix.det_mul, det_rotY, det_rotX, det_rotZ]
    norm_num

/-- Claim C8: with yaw, pitch and spin all zero the composed rotation matrix
is the identity; projecting the model-space point (1, 0, 0) yields the screen
point (WIDTH / 2 + SCALE, HEIGHT / 2); and projection is orthographic: screen
x is centered scaled model x, screen y is centered vertically flipped scaled
model y, the visibility mask is all-true, and model z is discarded. -/
theorem C8_identity_projection :
    compose_rotation 0 0 0 = 1
      ∧ (project_points [![1, 0, 0]]).1 = [WIDTH / 2 + SCALE]
      ∧ (project_points [![1, 0, 0]]).2.1 = [HEIGHT / 2]
      ∧ ∀ points : List Vec3,
          project_points points
            = (points.map (fun p => WIDTH / 2 + SCALE * p 0),
               points.map (fun p => HEIGHT / 2 - SCALE * p 1),
               points.map (fun _ => true),
               points.map (fun _ => (1 : ℝ))) := by
  have hproj : ∀ points : List Vec3,
      project_points points
        = (points.map (fun p => WIDTH / 2 + SCALE * p 0),
           points.map (fun p => HEIGHT / 2 - SCALE * p 1),
           points.map (fun _ => true),
           points.map (fun _ => (1 : ℝ))) := by
    intro points
    rw [project_points_def]
    have hx : (fun p : Vec3 => WIDTH * 0.5 + p 0 * SCALE)
        = fun p : Vec3 => WIDTH / 2 + SCALE * p 0 := by
      funext p
      ring
    have hy : (fun p : Vec3 => HEIGHT * 0.5 - p 1 * SCALE)
        = fun p : Vec3 => HEIGHT / 2 - SCALE * p 1 := by
      funext p
      ring
    rw [hx, hy]
  have hz : rotation_matrix_z 0 = 1 := by
    rw [rotation_matrix_z, Matrix.one_fin_three]
    norm_num
  have hx : rotation_matrix_x 0 = 1 := by
    rw [rotation_matrix_x, Matrix.one_fin_three]
    norm_num
  have hy : rotation_matrix_y 0 = 1 := by
    rw [rotation_matrix_y, Matrix.one_fin_three]
    norm_num
  refine ⟨by rw [compose_rotation, hz, hx, hy, mul_one, mul_one], ?_, ?_, hproj⟩
  · rw [hproj]
    simp only [List.map_cons, List.map_nil, Matrix.cons_val_zero]
    norm_num
  · rw [hproj]
    simp only [List.map_cons, List.map_nil, Matrix.cons_val_one, Matrix.head_cons]
    norm_num

/- ------------------------- the compositor ------------------------- -/

/-- An RGB color triple. -/
abbrev Color := ℕ × ℕ × ℕ

/-- A decorative light as generated at startup: a 3D sample point, a size and
a color (main.py lines 108-115). -/
abbrev Light := Vec3 × ℝ × Color

/-- A projected light as queued by the compositor: screen x, screen y, size
and color (main.py line 209). -/
abbrev ProjLight := ℝ × ℝ × ℝ × Color

/-- The per-segment tuple held in the segments list of main (main.py line
159): vertices, edge list, faces, and the per-face light lists. -/
abbrev Segment := List Vec3 × List (ℕ × ℕ) × List (List ℕ × List Bool) × List (List Light)

/-- Config constant FACE_EDGE_FRONT (main.py line 45). -/
def FACE_EDGE_FRONT : Color := (0, 255, 0)

/-- Config constant FACE_EDGE_BACK (main.py line 46). -/
def FACE_EDGE_BACK : Color := (0, 200, 255)

/-- One entry of the per-frame render list: the tuple appended at main.py
lines 212 and 215. -/
structure RenderItem where
  depth : ℝ
  kind : String
  points : List (ℝ × ℝ)
  edge_color : Color
  edge_flags : List Bool
  lights : List ProjLight
  is_back : Bool

/-- Projection of one face's lights into screen space (main.py lines 205-209). -/
noncomputable def project_lights (mat : Matrix (Fin 3) (Fin 3) ℝ) (lights_i : List Light) :
    List ProjLight :=
  if lights_i.isEmpty then []
  else
    let pts_world := lights_i.map (fun l => mat.mulVec l.1)
    let lpr := project_points pts_world
    (List.range lpr.1.length).map (fun j =>
      (lpr.1.getD j 0, lpr.2.1.getD j 0,
       (lights_i.getD j (0, 0, (0, 0, 0))).2.1, (lights_i.getD j (0, 0, (0, 0, 0))).2.2))

/-- The loop body for one face (main.py lines 200-215): when all the face's
vertices pass the visibility mask, emit the front RenderItem at the average
transformed depth of the face's vertices and the mirrored back RenderItem at
that depth minus DOUBLE_FACE_Z_OFFSET; otherwise emit nothing. -/
noncomputable def face_items (x2d y2d : List ℝ) (v_world : List Vec3) (mask_v : List Bool)
    (proj_lights : List ProjLight) (face_indices : List ℕ) (edge_flags : List Bool) :
    List RenderItem :=
  if face_indices.all (fun idx => mask_v.getD idx false) then
    let points_2d := face_indices.map (fun idx => (x2d.getD idx 0, y2d.getD idx 0))
    let avg_z := (face_indices.map (fun idx => (v_world.getD idx 0) 2)).sum
      / (face_indices.length : ℝ)
    [⟨avg_z, "face", points_2d, FACE_EDGE_FRONT, edge_flags, proj_lights, false⟩,
     ⟨avg_z - DOUBLE_FACE_Z_OFFSET, "face", points_2d.reverse, FACE_EDGE_BACK,
      reverse_edge_flags edge_flags, proj_lights, true⟩]
  else []

/-- The loop body for one segment (main.py lines 195-216): rotate the
segment's vertices into world space, project, and emit the face items of
every face. -/
noncomputable def segment_render_items (mat : Matrix (Fin 3) (Fin 3) ℝ) (seg : Segment) :
    List RenderItem :=
  let v_world := seg.1.map (fun p => mat.mulVec p)
  let pr := project_points v_world
  if pr.1.length = 0 then []
  else
    seg.2.2.1.enum.flatMap (fun fi =>
      face_items pr.1 pr.2.1 v_world pr.2.2.1
        (project_lights mat (seg.2.2.2.getD fi.1 [])) fi.2.1 fi.2.2)

/-- The whole unsorted render list of a frame (main.py lines 193-216). -/
noncomputable def build_render_list (segments : List Segment)
    (mat : Matrix (Fin 3) (Fin 3) ℝ) : List RenderItem :=
  segments.flatMap (segment_render_items mat)

/-- The depth sort of the render list (main.py line 218): stable sort
ascending by depth key. -/
noncomputable def sort_render_list (l : List RenderItem) : List RenderItem :=
  List.insertionSort (fun a b => a.depth ≤ b.depth) l

/-- The sorted per-frame render list. -/
noncomputable def render_frame (segments : List Segment) (mat : Matrix (Fin 3) (Fin 3) ℝ) :
    List RenderItem :=
  sort_render_list (build_render_list segments mat)

instance : IsTotal RenderItem (fun a b => a.depth ≤ b.depth) :=
  ⟨fun a b => le_total a.depth b.depth⟩

instance : IsTrans RenderItem (fun a b => a.depth ≤ b.depth) :=
  ⟨fun _ _ _ h1 h2 => le_trans h1 h2⟩

/- ------------------- compositor helper lemmas ------------------- -/

theorem getD_map_of_lt {α β : Type*} (l : List α) (f : α → β) (i : ℕ) (d : β) (d' : α)
    (h : i < l.length) : (l.map f).getD i d = f (l.getD i d') := by
  rw [List.getD_eq_getElem?_getD, List.getElem?_map, List.getD_eq_getElem?_getD,
    List.getElem?_eq_getElem h]
  rfl

/-- Every vertex of a face with in-bounds indices passes the visibility mask. -/
theorem face_mask_all_true (v_world : List Vec3) (face_indices : List ℕ)
    (hidx : ∀ idx ∈ face_indices, idx < v_world.length) :
    face_indices.all (fun idx => (v_world.map (fun _ => true)).getD idx false) = true := by
  rw [List.all_eq_true]
  intro idx hmem
  rw [getD_map_of_lt v_world _ idx false (0 : Vec3) (hidx idx hmem)]

theorem segment_render_items_eq (mat : Matrix (Fin 3) (Fin 3) ℝ) (seg : Segment)
    (hv : seg.1 ≠ []) :
    segment_render_items mat seg
      = seg.2.2.1.enum.flatMap (fun fi =>
          face_items ((seg.1.map (fun p => mat.mulVec p)).map (fun p => WIDTH * 0.5 + p 0 * SCALE))
            ((seg.1.map (fun p => mat.mulVec p)).map (fun p => HEIGHT * 0.5 - p 1 * SCALE))
            (seg.1.map (fun p => mat.mulVec p))
            ((seg.1.map (fun p => mat.mulVec p)).map (fun _ => true))
            (project_lights mat (seg.2.2.2.getD fi.1 [])) fi.2.1 fi.2.2) := by
  simp only [segment_render_items, project_points_def]
  rw [if_neg (by
    simp only [List.length_map]
    intro hlen
    exact hv (List.length_eq_zero.mp hlen))]

/-- A face with in-bounds indices contributes exactly its front and back
items to the segment's render items. -/
theorem length_segment_render_items (mat : Matrix (Fin 3) (Fin 3) ℝ) (seg : Segment)
    (hv : seg.1 ≠ [])
    (hidx : ∀ fp ∈ seg.2.2.1, ∀ idx ∈ fp.1, idx < seg.1.length) :
    (segment_render_items mat seg).length = 2 * seg.2.2.1.length := by
  rw [segment_render_items_eq mat seg hv, List.length_flatMap]
  have hcongr : ∀ fi ∈ seg.2.2.1.enum,
      (List.length ∘ fun fi : ℕ × List ℕ × List Bool =>
        face_items ((seg.1.map (fun p => mat.mulVec p)).map (fun p => WIDTH * 0.5 + p 0 * SCALE))
          ((seg.1.map (fun p => mat.mulVec p)).map (fun p => HEIGHT * 0.5 - p 1 * SCALE))
          (seg.1.map (fun p => mat.mulVec p))
          ((seg.1.map (fun p => mat.mulVec p)).map (fun _ => true))
          (project_lights mat (seg.2.2.2.getD fi.1 [])) fi.2.1 fi.2.2) fi = 2 := by
    intro fi hfi
    obtain ⟨i, fp⟩ := fi
    obtain ⟨hilt, hface⟩ := List.mem_enum hfi
    have hmem : fp ∈ seg.2.2.1 := by
      rw [hface]
      exact List.getElem_mem hilt
    have hmask := face_mask_all_true (seg.1.map (fun p => mat.mulVec p)) fp.1
      (by
        intro idx hidx'
        rw [List.length_map]
        exact hidx fp hmem idx hidx')
    simp only [Function.comp_apply, face_items, hmask, if_true]
    rfl
  rw [List.map_congr_left hcongr, List.map_const', List.sum_replicate, List.enum_length,
    smul_eq_mul, Nat.mul_comm]

theorem kind_face_segment (mat : Matrix (Fin 3) (Fin 3) ℝ) (seg : Segment) :
    ∀ it ∈ segment_render_items mat seg, it.kind = "face" := by
  intro it hit
  simp only [segment_render_items] at hit
  split at hit
  · exact absurd hit (List.not_mem_nil it)
  · obtain ⟨fi, _, hfi⟩ := List.mem_flatMap.mp hit
    simp only [face_items] at hfi
    split at hfi
    · rcases List.mem_cons.mp hfi with rfl | hfi2
      · rfl
      · rcases List.mem_cons.mp hfi2 with rfl | hfi3
        · rfl
        · exact absurd hfi3 (List.not_mem_nil it)
    · exact absurd hfi (List.not_mem_nil it)

/-- Every face of a segment contributes a front item and a back item to the
segment render items; the front item's depth is the average transformed z of
the face's vertices, and the back item's depth is that value minus
DOUBLE_FACE_Z_OFFSET. -/
theorem mem_segment_render_items (mat : Matrix (Fin 3) (Fin 3) ℝ) (seg : Segment)
    (hv : seg.1 ≠ [])
    (hidx : ∀ fp ∈ seg.2.2.1, ∀ idx ∈ fp.1, idx < seg.1.length)
    (fp : List ℕ × List Bool) (hfp : fp ∈ seg.2.2.1) :
    ∃ itF ∈ segment_render_items mat seg, ∃ itB ∈ segment_render_items mat seg,
      itF.is_back = false ∧ itB.is_back = true
      ∧ itF.depth
          = (fp.1.map (fun idx => mat.mulVec (seg.1.getD idx 0) 2)).sum / (fp.1.length : ℝ)
      ∧ itB.depth = itF.depth - DOUBLE_FACE_Z_OFFSET := by
  rw [segment_render_items_eq mat seg hv]
  obtain ⟨i, hilt, hget⟩ := List.mem_iff_getElem.mp hfp
  have henum : (i, fp) ∈ seg.2.2.1.enum := by
    rw [List.mem_iff_getElem]
    refine ⟨i, by simpa using hilt, ?_⟩
    rw [List.getElem_enum, hget]
  have hmask := face_mask_all_true (seg.1.map (fun p => mat.mulVec p)) fp.1 (by
    intro idx h
    rw [List.length_map]
    exact hidx fp hfp idx h)
  have hface : face_items
      ((seg.1.map (fun p => mat.mulVec p)).map (fun p => WIDTH * 0.5 + p 0 * SCALE))
      ((seg.1.map (fun p => mat.mulVec p)).map (fun p => HEIGHT * 0.5 - p 1 * SCALE))
      (seg.1.map (fun p => mat.mulVec p))
      ((seg.1.map (fun p => mat.mulVec p)).map (fun _ => true))
      (project_lights mat (seg.2.2.2.getD i [])) fp.1 fp.2
      = [⟨(fp.1.map (fun idx => ((seg.1.map (fun p => mat.mulVec p)).getD idx 0) 2)).sum
            / (fp.1.length : ℝ), "face",
          fp.1.map (fun idx =>
            (((seg.1.map (fun p => mat.mulVec p)).map (fun p => WIDTH * 0.5 + p 0 * SCALE)).getD idx 0,
             ((seg.1.map (fun p => mat.mulVec p)).map (fun p => HEIGHT * 0.5 - p 1 * SCALE)).getD idx 0)),
          FACE_EDGE_FRONT, fp.2, project_lights mat (seg.2.2.2.getD i []), false⟩,
         ⟨(fp.1.map (fun idx => ((seg.1.map (fun p => mat.mulVec p)).getD idx 0) 2)).sum
            / (fp.1.length : ℝ) - DOUBLE_FACE_Z_OFFSET, "face",
          (fp.1.map (fun idx =>
            (((seg.1.map (fun p => mat.mulVec p)).map (fun p => WIDTH * 0.5 + p 0 * SCALE)).getD idx 0,
             ((seg.1.map (fun p => mat.mulVec p)).map (fun p => HEIGHT * 0.5 - p 1 * SCALE)).getD idx 0))).reverse,
          FACE_EDGE_BACK, reverse_edge_flags fp.2,
          project_lights mat (seg.2.2.2.getD i []), true⟩] := by
    simp only [face_items, hmask, if_true]
  have havg : (fp.1.map (fun idx => ((seg.1.map (fun p => mat.mulVec p)).getD idx 0) 2)).sum
      = (fp.1.map (fun idx => mat.mulVec (seg.1.getD idx 0) 2)).sum := by
    refine congrArg List.sum (List.map_congr_left ?_)
    intro idx hmem
    rw [getD_map_of_lt seg.1 _ idx (0 : Vec3) (0 : Vec3) (hidx fp hfp idx hmem)]
  refine ⟨_, List.mem_flatMap.mpr ⟨(i, fp), henum, by rw [hface]; exact List.mem_cons_self _ _⟩,
    _, List.mem_flatMap.mpr ⟨(i, fp), henum,
      by rw [hface]; exact List.mem_cons_of_mem _ (List.mem_cons_self _ _)⟩,
    rfl, rfl, ?_, ?_⟩
  · show (fp.1.map (fun idx => ((seg.1.map (fun p => mat.mulVec p)).getD idx 0) 2)).sum
        / (fp.1.length : ℝ)
      = (fp.1.map (fun idx => mat.mulVec (seg.1.getD idx 0) 2)).sum / (fp.1.length : ℝ)
    rw [havg]
  · rfl

/-- Claim C1: with every segment nonempty and every face index in bounds (as
holds for the program's segments), the sorted per-frame render list consists
of exactly two face items per face of every segment; the projection's
visibility mask is always all-true, so no face is skipped; each face yields a
front item whose depth key is the mean transformed z of its four vertices and
a back item at exactly that mean minus DOUBLE_FACE_Z_OFFSET; and the sorted
list's depth keys are non-decreasing. -/
theorem C1_render_list (segments : List Segment) (mat : Matrix (Fin 3) (Fin 3) ℝ)
    (hverts : ∀ seg ∈ segments, seg.1 ≠ [])
    (hidx : ∀ seg ∈ segments, ∀ fp ∈ seg.2.2.1, ∀ idx ∈ fp.1, idx < seg.1.length) :
    ((render_frame segments mat).filter (fun it => it.kind == "face")).length
        = 2 * (segments.map (fun seg => seg.2.2.1.length)).sum
      ∧ (∀ points : List Vec3, (project_points points).2.2.1 = List.replicate points.length true)
      ∧ (∀ seg ∈ segments, ∀ fp ∈ seg.2.2.1, ∀ i0 i1 i2 i3 : ℕ, fp.1 = [i0, i1, i2, i3] →
          (∃ it ∈ render_frame segments mat, it.is_back = false
              ∧ it.depth = (mat.mulVec (seg.1.getD i0 0) 2 + mat.mulVec (seg.1.getD i1 0) 2
                  + mat.mulVec (seg.1.getD i2 0) 2 + mat.mulVec (seg.1.getD i3 0) 2) / 4)
            ∧ (∃ it ∈ render_frame segments mat, it.is_back = true
              ∧ it.depth = (mat.mulVec (seg.1.getD i0 0) 2 + mat.mulVec (seg.1.getD i1 0) 2
                  + mat.mulVec (seg.1.getD i2 0) 2 + mat.mulVec (seg.1.getD i3 0) 2) / 4
                  - DOUBLE_FACE_Z_OFFSET))
      ∧ List.Pairwise (fun a b => a.depth ≤ b.depth) (render_frame segments mat) := by
  have hperm : (render_frame segments mat).Perm (build_render_list segments mat) :=
    List.perm_insertionSort _ _
  have hkind : ∀ it ∈ build_render_list segments mat, it.kind = "face" := by
    intro it hit
    obtain ⟨seg, hseg, hit2⟩ := List.mem_flatMap.mp hit
    exact kind_face_segment mat seg it hit2
  refine ⟨?_, ?_, ?_, ?_⟩
  · have hfilter : (build_render_list segments mat).filter (fun it => it.kind == "face")
        = build_render_list segments mat := by
      rw [List.filter_eq_self]
      intro it hit
      rw [hkind it hit]
      simp
    rw [(hperm.filter (fun it => it.kind == "face")).length_eq, hfilter, build_render_list,
      List.length_flatMap]
    simp only [Function.comp_def]
    rw [List.map_congr_left (fun seg hseg =>
      length_segment_render_items mat seg (hverts seg hseg) (hidx seg hseg))]
    exact List.sum_map_mul_left segments (fun seg => seg.2.2.1.length) 2
  · intro points
    rw [project_points_def]
    exact List.map_const' points true
  · intro seg hseg fp hfp i0 i1 i2 i3 hfp1
    obtain ⟨itF, hitF, itB, hitB, hbF, hbB, hdF, hdB⟩ :=
      mem_segment_render_items mat seg (hverts seg hseg) (hidx seg hseg) fp hfp
    have hmean : (fp.1.map (fun idx => mat.mulVec (seg.1.getD idx 0) 2)).sum / (fp.1.length : ℝ)
        = (mat.mulVec (seg.1.getD i0 0) 2 + mat.mulVec (seg.1.getD i1 0) 2
            + mat.mulVec (seg.1.getD i2 0) 2 + mat.mulVec (seg.1.getD i3 0) 2) / 4 := by
      rw [hfp1]
      simp only [List.map_cons, List.map_nil, List.sum_cons, List.sum_nil, List.length_cons,
        List.length_nil]
      norm_num
      ring
    have hmemF : itF ∈ render_frame segments mat :=
      hperm.mem_iff.mpr (List.mem_flatMap.mpr ⟨seg, hseg, hitF⟩)
    have hmemB : itB ∈ render_frame segments mat :=
      hperm.mem_iff.mpr (List.mem_flatMap.mpr ⟨seg, hseg, hitB⟩)
    exact ⟨⟨itF, hmemF, hbF, by rw [hdF, hmean]⟩,
      ⟨itB, hmemB, hbB, by rw [hdB, hdF, hmean]⟩⟩
  · show List.Sorted (fun a b : RenderItem => a.depth ≤ b.depth)
      (List.insertionSort (fun a b => a.depth ≤ b.depth) (build_render_list segments mat))
    exact List.sorted_insertionSort (fun a b : RenderItem => a.depth ≤ b.depth)
      (build_render_list segments mat)

/-- Witness for C1: a one-segment scene with a single quad face, rendered with
the identity rotation, has a render list of exactly two face items. -/
theorem C1_render_list_witness :
    (∀ seg ∈ ([([![0, 0, 0], ![1, 0, 0], ![1, 1, 0], ![0, 1, 0]], [],
          [([0, 1, 2, 3], [true, true, true, true])], [[]])] : List Segment), seg.1 ≠ [])
      ∧ (∀ seg ∈ ([([![0, 0, 0], ![1, 0, 0], ![1, 1, 0], ![0, 1, 0]], [],
          [([0, 1, 2, 3], [true, true, true, true])], [[]])] : List Segment),
          ∀ fp ∈ seg.2.2.1, ∀ idx ∈ fp.1, idx < seg.1.length)
      ∧ ((render_frame [([![0, 0, 0], ![1, 0, 0], ![1, 1, 0], ![0, 1, 0]], [],
            [([0, 1, 2, 3], [true, true, true, true])], [[]])] 1).filter
          (fun it => it.kind == "face")).length
        = 2 * (([([![0, 0, 0], ![1, 0, 0], ![1, 1, 0], ![0, 1, 0]], [],
            [([0, 1, 2, 3], [true, true, true, true])], [[]])] : List Segment).map
            (fun seg => seg.2.2.1.length)).sum := by
  have h1 : ∀ seg ∈ ([([![0, 0, 0], ![1, 0, 0], ![1, 1, 0], ![0, 1, 0]], [],
      [([0, 1, 2, 3], [true, true, true, true])], [[]])] : List Segment), seg.1 ≠ [] := by
    intro seg hseg
    rw [List.mem_singleton] at hseg
    subst hseg
    simp
  have h2 : ∀ seg ∈ ([([![0, 0, 0], ![1, 0, 0], ![1, 1, 0], ![0, 1, 0]], [],
      [([0, 1, 2, 3], [true, true, true, true])], [[]])] : List Segment),
      ∀ fp ∈ seg.2.2.1, ∀ idx ∈ fp.1, idx < seg.1.length := by
    intro seg hseg
    rw [List.mem_singleton] at hseg
    subst hseg
    intro fp hfp idx hidx
    rw [List.mem_singleton] at hfp
    subst hfp
    simp only [List.length_cons, List.length_nil]
    fin_cases hidx <;> omega
  exact ⟨h1, h2, (C1_render_list _ 1 h1 h2).1⟩

theorem list_length_eq_four {α : Type*} (l : List α) (h : l.length = 4) :
    ∃ a b c d, l = [a, b, c, d] := by
  rcases l with _ | ⟨a, l⟩
  · simp at h
  rcases l with _ | ⟨b, l⟩
  · simp at h
  rcases l with _ | ⟨c, l⟩
  · simp at h
  rcases l with _ | ⟨d, l⟩
  · simp at h
  rcases l with _ | ⟨e, l⟩
  · exact ⟨a, b, c, d, rfl⟩
  · simp at h

theorem reverse_edge_flags_four (f0 f1 f2 f3 : Bool) :
    reverse_edge_flags [f0, f1, f2, f3] = [f2, f1, f0, f3] := rfl

/-- Claim C2: for a quadrilateral face with four corner points and four
edge-draw flags, the back copy built from the reversed point list and
reverse_edge_flags draws each edge k (between consecutive reversed points k
and k+1 mod 4) between the same unordered pair of corners as some front edge
m, with the back flag at k equal to the front flag at m; so no visual edge
gets inconsistent visibility between the two sides. -/
theorem C2_back_face_edge_consistency {α : Type*} (d : α) (points : List α)
    (flags : List Bool) (hp : points.length = 4) (hf : flags.length = 4) :
    ∀ k < 4, ∃ m < 4,
      ({points.reverse.getD k d, points.reverse.getD ((k + 1) % 4) d} : Set α)
          = {points.getD m d, points.getD ((m + 1) % 4) d}
        ∧ (reverse_edge_flags flags).getD k false = flags.getD m false := by
  obtain ⟨a, b, c, d4, rfl⟩ := list_length_eq_four points hp
  obtain ⟨f0, f1, f2, f3, rfl⟩ := list_length_eq_four flags hf
  intro k hk
  interval_cases k
  · exact ⟨2, by omega, Set.pair_comm d4 c, rfl⟩
  · exact ⟨1, by omega, Set.pair_comm c b, rfl⟩
  · exact ⟨0, by omega, Set.pair_comm b a, rfl⟩
  · exact ⟨3, by omega, Set.pair_comm a d4, rfl⟩

/-- Witness for C2: a concrete quad and flag list. -/
theorem C2_back_face_edge_consistency_witness :
    ([10, 20, 30, 40] : List ℕ).length = 4
      ∧ ([true, false, true, false] : List Bool).length = 4
      ∧ ∀ k < 4, ∃ m < 4,
        ({([10, 20, 30, 40] : List ℕ).reverse.getD k 0,
            ([10, 20, 30, 40] : List ℕ).reverse.getD ((k + 1) % 4) 0} : Set ℕ)
            = {([10, 20, 30, 40] : List ℕ).getD m 0,
               ([10, 20, 30, 40] : List ℕ).getD ((m + 1) % 4) 0}
          ∧ (reverse_edge_flags [true, false, true, false]).getD k false
              = ([true, false, true, false] : List Bool).getD m false :=
  ⟨rfl, rfl, C2_back_face_edge_consistency 0 [10, 20, 30, 40] [true, false, true, false] rfl rfl⟩

end DysonRing
